import Mathlib

/-!
Verification of the memory subsystem of `velox/common/memory/Memory.cpp`:
the size-class policy `MemoryPool::getPreferredSize`, the two allocator
variants (`MmapMemoryAllocator` and the heap-backed `MemoryAllocator`),
and the `MemoryPool` parent/child tree operations.

Machine integers (`size_t`, `int64_t`) are modelled as `Nat`/`Int` with an
explicit `% 2 ^ 64` at the one place 64-bit overflow can occur.
-/

namespace Velox

/-- Floor of the base-2 logarithm, by structural recursion on a fuel
argument (so that it reduces in the kernel).  `floorLog2Fuel fuel n` is
correct for `n < 2 ^ fuel`. -/
def floorLog2Fuel : Nat → Nat → Nat
  | 0, _ => 0
  | fuel + 1, n => if n ≤ 1 then 0 else floorLog2Fuel fuel (n / 2) + 1

/-- `bits::countLeadingZeros` on a 64-bit word, for nonzero `n < 2 ^ 64`:
`64 - (floor (log2 n) + 1)`. -/
def countLeadingZeros (n : Nat) : Nat :=
  if n = 0 then 64 else 64 - (floorLog2Fuel 64 n + 1)

/-- `MemoryPool::getPreferredSize` from `Memory.cpp`, lines 192-208, on the
64-bit `size_t` domain (`size < 2 ^ 64`).

```cpp
size_t MemoryPool::getPreferredSize(size_t size) {
  if (size < 8) { return 8; }
  int32_t bits = 63 - bits::countLeadingZeros(size);
  size_t lower = 1ULL << bits;
  if (lower == size) { return size; }
  if (lower + (lower / 2) >= size) { return lower + (lower / 2); }
  return lower * 2;
}
```

`lower` and `lower + lower / 2` cannot exceed `2 ^ 64 - 1` when
`size < 2 ^ 64`; `lower * 2` can (when `lower = 2 ^ 63`), so it carries the
`size_t` truncation explicitly. -/
def getPreferredSize (size : Nat) : Nat :=
  if size < 8 then 8
  else
    let bits := 63 - countLeadingZeros size
    let lower := 1 <<< bits
    if lower = size then size
    else if lower + lower / 2 ≥ size then lower + lower / 2
    else lower * 2 % 2 ^ 64

/-- The size-class algorithm exactly as the specification words it (claim
C1): below 8 return 8; at a power of two return the input; otherwise with
`lower` the largest power of two below the input, return `lower + lower/2`
when the input is at most that, else `lower * 2` — in exact (unbounded)
integer arithmetic.  To be compared with `getPreferredSize`, which is
translated from the source. -/
def getPreferredSizeSpec (size : Nat) : Nat :=
  if size < 8 then 8
  else
    let lower := 2 ^ floorLog2Fuel 64 size
    if size = lower then size
    else if size ≤ lower + lower / 2 then lower + lower / 2
    else lower * 2

/-! ### A small machine-memory model for the allocator variants

Allocated memory is a finite association list from addresses to block
contents (lists of byte values).  Whether the backing allocation primitive
succeeds is driven by an explicit oracle (`failures`), since resource
exhaustion is external to the code under verification.  Freshly allocated
(uninitialized) bytes all carry the arbitrary value `junk`. -/

/-- First-match lookup in an association list keyed by addresses. -/
def assocFind {β : Type} : List (Nat × β) → Nat → Option β
  | [], _ => none
  | (a, c) :: rest, x => if a = x then some c else assocFind rest x

/-- Remove the first entry with the given key (like erasing a found
iterator from a container). -/
def assocRemove {β : Type} : List (Nat × β) → Nat → List (Nat × β)
  | [], _ => []
  | (a, c) :: rest, x => if a = x then rest else (a, c) :: assocRemove rest x

/-- Apply `g` to every entry stored under the given key. -/
def assocUpdate {β : Type} (g : β → β) : List (Nat × β) → Nat → List (Nat × β)
  | [], _ => []
  | (a, c) :: rest, x =>
    if a = x then (a, g c) :: assocUpdate g rest x
    else (a, c) :: assocUpdate g rest x

/-- The state of the machine memory: allocated blocks, a fresh-address
counter, the allocation-failure oracle, and the byte value found in
uninitialized memory. -/
structure Mem where
  blocks : List (Nat × List Nat)
  nextAddr : Nat
  failures : List Bool
  junk : Nat
deriving DecidableEq

/-- The contents of the block at address `a`, if allocated. -/
def Mem.lookup (st : Mem) (a : Nat) : Option (List Nat) :=
  assocFind st.blocks a

/-- Every allocated address is below the fresh-address counter, and no
address is allocated twice. -/
def Mem.wf (st : Mem) : Prop :=
  (∀ p ∈ st.blocks, p.1 < st.nextAddr) ∧ (st.blocks.map Prod.fst).Nodup

instance (st : Mem) : Decidable st.wf := by
  unfold Mem.wf
  infer_instance

/-- Modelled from the spec: the external mapped-memory manager's
`allocateBytes(size)` (`MappedMemory` is outside the examined source).
It returns a pointer to a fresh block of `size` bytes or null on failure;
the failure oracle decides which. -/
def Mem.allocateBytes (st : Mem) (size : Nat) : Option Nat × Mem :=
  if st.failures.head? = some true then
    (none, { st with failures := st.failures.tail })
  else
    (some st.nextAddr,
     { st with
        blocks := (st.nextAddr, List.replicate size st.junk) :: st.blocks
        nextAddr := st.nextAddr + size + 1
        failures := st.failures.tail })

/-- Modelled from the spec: the external mapped-memory manager's
`freeBytes(p, size)`; releases the block at `p` (the manager requires
`size` to equal the allocation size, which the model records but does not
consume). -/
def Mem.freeBytes (st : Mem) (a : Nat) (_size : Nat) : Mem :=
  { st with blocks := assocRemove st.blocks a }

/-- Modelled from the spec: libc `aligned_alloc(alignment, size)` used by
the heap-backed variant: a fresh block whose address is a multiple of
`alignment`, or null on failure. -/
def Mem.allocateAlignedBytes (st : Mem) (alignment size : Nat) :
    Option Nat × Mem :=
  if st.failures.head? = some true then
    (none, { st with failures := st.failures.tail })
  else
    let a := alignment * ((st.nextAddr + alignment - 1) / alignment)
    (some a,
     { st with
        blocks := (a, List.replicate size st.junk) :: st.blocks
        nextAddr := a + size + 1
        failures := st.failures.tail })

/-- libc `std::memset(a, v, n)`: writes the byte `v` over the first `n`
bytes of the block at `a`. -/
def Mem.memset (st : Mem) (a v n : Nat) : Mem :=
  { st with
     blocks := assocUpdate
       (fun c => List.replicate n v ++ c.drop n) st.blocks a }

/-- libc `std::memcpy(dst, src, n)`: copies the first `n` bytes of the
block at `src` over the first `n` bytes of the block at `dst` (reading
past the source block is undefined behaviour; the model copies what the
source block holds). -/
def Mem.memcpy (st : Mem) (dst src n : Nat) : Mem :=
  match assocFind st.blocks src with
  | none => st
  | some c =>
    { st with
       blocks := assocUpdate
         (fun old => c.take n ++ old.drop (c.take n).length) st.blocks dst }

/-- libc `std::free(p)`: releases the block at `p`; null is a no-op. -/
def Mem.stdFree (st : Mem) (p : Option Nat) : Mem :=
  match p with
  | none => st
  | some a => { st with blocks := assocRemove st.blocks a }

/-- Result of the aligned entry points: either an ordinary outcome (a
possibly-null pointer plus the resulting memory) or a raised
unsupported-operation failure carrying its message. -/
inductive AlignedResult where
  | ok : Option Nat → Mem → AlignedResult
  | unsupported : String → AlignedResult
deriving DecidableEq

/-- `MmapMemoryAllocator::alloc` (`Memory.cpp` line 36): delegates to the
mapped-memory manager's `allocateBytes`. -/
def MmapMemoryAllocator.alloc (st : Mem) (size : Nat) : Option Nat × Mem :=
  st.allocateBytes size

/-- `MmapMemoryAllocator::allocZeroFilled` (`Memory.cpp` lines 40-48):
allocate `numMembers * sizeEach` bytes and `memset` them to zero when the
allocation succeeded. -/
def MmapMemoryAllocator.allocZeroFilled (st : Mem) (numMembers sizeEach : Nat) :
    Option Nat × Mem :=
  let totalBytes := numMembers * sizeEach
  let (allocResult, st1) := MmapMemoryAllocator.alloc st totalBytes
  match allocResult with
  | none => (none, st1)
  | some p => (some p, st1.memset p 0 totalBytes)

/-- `MmapMemoryAllocator::allocAligned` (`Memory.cpp` lines 50-55): raises
`VELOX_UNSUPPORTED` unconditionally. -/
def MmapMemoryAllocator.allocAligned (_st : Mem) (_alignment _size : Nat) :
    AlignedResult :=
  .unsupported "allocAligned is not supported for MmapMemoryAllocator."

/-- `MmapMemoryAllocator::realloc` (`Memory.cpp` lines 57-68): allocate
`newSize` bytes; if the original pointer is null or the allocation failed,
return the allocation result; otherwise copy `min(size, newSize)` bytes,
free the original block with its original size, and return the new one. -/
def MmapMemoryAllocator.realloc (st : Mem) (p : Option Nat)
    (size newSize : Nat) : Option Nat × Mem :=
  let (newAlloc, st1) := MmapMemoryAllocator.alloc st newSize
  match p, newAlloc with
  | none, _ => (newAlloc, st1)
  | some _, none => (newAlloc, st1)
  | some pa, some na =>
    let st2 := st1.memcpy na pa (min size newSize)
    let st3 := st2.freeBytes pa size
    (some na, st3)

/-- `MmapMemoryAllocator::reallocAligned` (`Memory.cpp` lines 70-76):
raises `VELOX_UNSUPPORTED` unconditionally. -/
def MmapMemoryAllocator.reallocAligned (_st : Mem) (_p : Option Nat)
    (_alignment _size _newSize : Nat) : AlignedResult :=
  .unsupported "reallocAligned is not supported for MmapMemoryAllocator."

/-- `MmapMemoryAllocator::free` (`Memory.cpp` lines 78-83): null is a
no-op, otherwise delegate to the manager's `freeBytes` with the size. -/
def MmapMemoryAllocator.free (st : Mem) (p : Option Nat) (size : Nat) : Mem :=
  match p with
  | none => st
  | some a => st.freeBytes a size

/-- `MemoryAllocator::allocAligned` (`Memory.cpp` lines 99-102): the
heap-backed variant delegates to `aligned_alloc`. -/
def MemoryAllocator.allocAligned (st : Mem) (alignment size : Nat) :
    Option Nat × Mem :=
  st.allocateAlignedBytes alignment size

/-- `MemoryAllocator::reallocAligned` (`Memory.cpp` lines 111-125), the
heap-backed variant.  Sizes are `int64_t`, hence `Int`:

```cpp
if (newSize <= 0) { return nullptr; }
auto block = aligned_alloc(alignment, newSize);
if (block) {
  memcpy(block, p, std::min(size, newSize));
  std::free(p);
}
return block;
```

(`memcpy` from a null `p` is undefined behaviour in the source; the model
copies nothing there.) -/
def MemoryAllocator.reallocAligned (st : Mem) (p : Option Nat)
    (alignment : Nat) (size newSize : Int) : Option Nat × Mem :=
  if newSize ≤ 0 then (none, st)
  else
    let (block, st1) := st.allocateAlignedBytes alignment newSize.toNat
    match block with
    | none => (none, st1)
    | some b =>
      let st2 := match p with
        | none => st1
        | some pa => st1.memcpy b pa (min size newSize).toNat
      (some b, st2.stdFree p)

/-! ### The `MemoryPool` tree

A pool forest: a finite association list from pool ids to pool records.
A pool record holds the pool's name, its optional parent, the ordered list
of its children ids (`children_` is an insertion-ordered vector of
non-owning references), its capped flag, and its byte quota `cap`. -/

/-- One `MemoryPool`'s attributes. -/
structure PoolState where
  name : String
  parent : Option Nat
  children : List Nat
  capped : Bool
  cap : Int
deriving DecidableEq

/-- All pools, keyed by id, plus a fresh-id counter. -/
structure Forest where
  pools : List (Nat × PoolState)
  nextId : Nat
deriving DecidableEq

/-- The pool record with id `i`, if it exists. -/
def lookupPool (f : Forest) (i : Nat) : Option PoolState :=
  assocFind f.pools i

/-- Pool ids are unique and below the fresh-id counter. -/
def Forest.wf (f : Forest) : Prop :=
  (∀ p ∈ f.pools, p.1 < f.nextId) ∧ (f.pools.map Prod.fst).Nodup

instance (f : Forest) : Decidable f.wf := by
  unfold Forest.wf
  infer_instance

/-- Apply `g` to the pool record with id `i`. -/
def updatePool (f : Forest) (i : Nat) (g : PoolState → PoolState) : Forest :=
  { f with pools := assocUpdate g f.pools i }

/-- The names of the existing children of pool `pid`. -/
def childNames (f : Forest) (pid : Nat) : List String :=
  match lookupPool f pid with
  | none => []
  | some ps => ps.children.filterMap (fun c => (lookupPool f c).map PoolState.name)

/-- `MemoryPool::isMemoryCapped` — reads the capped flag (declared in the
header; accessor behaviour fixed by the spec's capped/uncapped flag). -/
def isMemoryCapped (f : Forest) (pid : Nat) : Bool :=
  match lookupPool f pid with
  | none => false
  | some ps => ps.capped

/-- Modelled from the spec: `MemoryPool::capMemoryAllocation` (declared
outside the examined source) marks the pool as capped. -/
def capMemoryAllocation (f : Forest) (pid : Nat) : Forest :=
  updatePool f pid (fun ps => { ps with capped := true })

/-- Modelled from the spec: `genChild` (a virtual whose implementation is
outside the examined source) constructs a fresh child pool of `pid` named
`name` with quota `cap`; per the source comment on `addChild` ("Upon name
collision we would throw and not modify the map") it fails, mutating
nothing, when `name` collides with an existing child of `pid`. -/
def genChild (f : Forest) (pid : Nat) (name : String) (cap : Int) :
    Option (Nat × Forest) :=
  match lookupPool f pid with
  | none => none
  | some _ =>
    if name ∈ childNames f pid then none
    else
      some (f.nextId,
        { pools := (f.nextId,
            { name := name, parent := some pid, children := [],
              capped := false, cap := cap }) :: f.pools
          nextId := f.nextId + 1 })

/-- `MemoryPool::addChild` (`Memory.cpp` lines 164-178): create the child
via `genChild`; propagate the capped flag when the parent is currently
capped; record the back-reference in `children_` (the usage-tracker
attachment is external and outside this model).  A `genChild` failure
(name collision) escapes without mutating anything. -/
def addChild (f : Forest) (pid : Nat) (name : String) (cap : Int) :
    Option Nat × Forest :=
  match genChild f pid name cap with
  | none => (none, f)
  | some (cid, f1) =>
    let f2 := if isMemoryCapped f1 pid then capMemoryAllocation f1 cid else f1
    let f3 := updatePool f2 pid (fun ps => { ps with children := ps.children ++ [cid] })
    (some cid, f3)

/-- `MemoryPool::dropChild` (`Memory.cpp` lines 180-190): find `cid` in
`children_`; a missing child is a fatal `VELOX_CHECK` failure (`none`);
otherwise erase exactly the found entry. -/
def dropChild (f : Forest) (pid cid : Nat) : Option Forest :=
  match lookupPool f pid with
  | none => none
  | some ps =>
    if cid ∈ ps.children then
      some (updatePool f pid (fun p => { p with children := p.children.erase cid }))
    else none

/-- Remove the pool record with id `cid` (the storage released when the
destroyed pool object goes away). -/
def removePool (f : Forest) (cid : Nat) : Forest :=
  { f with pools := assocRemove f.pools cid }

/-- `MemoryPool::~MemoryPool` (`Memory.cpp` lines 136-141): a non-empty
child set is a fatal `VELOX_CHECK` failure (`none`); otherwise the pool
removes itself from its parent's child set (when it has a parent) and its
record goes away. -/
def destroyPool (f : Forest) (cid : Nat) : Option Forest :=
  match lookupPool f cid with
  | none => none
  | some ps =>
    if ps.children = [] then
      match ps.parent with
      | none => some (removePool f cid)
      | some par => (dropChild f par cid).map (fun f1 => removePool f1 cid)
    else none

/-- `MemoryPool::getChildCount` (`Memory.cpp` lines 151-154). -/
def getChildCount (f : Forest) (pid : Nat) : Nat :=
  match lookupPool f pid with
  | none => 0
  | some ps => ps.children.length

/-! ### Properties of the size-class policy -/

theorem floorLog2Fuel_bracket : ∀ fuel n, 1 ≤ n → n < 2 ^ fuel →
    2 ^ floorLog2Fuel fuel n ≤ n ∧ n < 2 ^ (floorLog2Fuel fuel n + 1) := by
  intro fuel
  induction fuel with
  | zero => intro n h1 h2; omega
  | succ fuel ih =>
    intro n h1 h2
    unfold floorLog2Fuel
    by_cases hn : n ≤ 1
    · simp [hn]; omega
    · simp only [hn, if_false]
      have hhalf : 1 ≤ n / 2 := by omega
      have hlt : n / 2 < 2 ^ fuel := by
        have : n < 2 * 2 ^ fuel := by
          calc n < 2 ^ (fuel + 1) := h2
          _ = 2 * 2 ^ fuel := by ring
        omega
      obtain ⟨hL, hR⟩ := ih (n / 2) hhalf hlt
      constructor
      · calc 2 ^ (floorLog2Fuel fuel (n / 2) + 1)
            = 2 * 2 ^ floorLog2Fuel fuel (n / 2) := by ring
        _ ≤ 2 * (n / 2) := by omega
        _ ≤ n := by omega
      · have : n / 2 + 1 ≤ 2 ^ (floorLog2Fuel fuel (n / 2) + 1) := hR
        calc n ≤ 2 * (n / 2) + 1 := by omega
        _ < 2 * 2 ^ (floorLog2Fuel fuel (n / 2) + 1) := by omega
        _ = 2 ^ (floorLog2Fuel fuel (n / 2) + 1 + 1) := by ring

theorem floorLog2Fuel_unique (k n : Nat) (h64 : n < 2 ^ 64)
    (hk1 : 2 ^ k ≤ n) (hk2 : n < 2 ^ (k + 1)) : floorLog2Fuel 64 n = k := by
  have h1 : 1 ≤ n := le_trans (Nat.one_le_two_pow) hk1
  obtain ⟨hL, hR⟩ := floorLog2Fuel_bracket 64 n h1 h64
  set j := floorLog2Fuel 64 n with hj
  rcases Nat.lt_trichotomy j k with h | h | h
  · exfalso
    have : 2 ^ (j + 1) ≤ 2 ^ k := Nat.pow_le_pow_right (by norm_num) (by omega)
    omega
  · exact h
  · exfalso
    have : 2 ^ (k + 1) ≤ 2 ^ j := Nat.pow_le_pow_right (by norm_num) (by omega)
    omega

theorem floorLog2Fuel_mono (a b : Nat) (h1 : 1 ≤ a) (hab : a ≤ b)
    (h64 : b < 2 ^ 64) : floorLog2Fuel 64 a ≤ floorLog2Fuel 64 b := by
  obtain ⟨haL, haR⟩ := floorLog2Fuel_bracket 64 a h1 (by omega)
  obtain ⟨hbL, hbR⟩ := floorLog2Fuel_bracket 64 b (by omega) h64
  by_contra hcon
  have : 2 ^ (floorLog2Fuel 64 b + 1) ≤ 2 ^ floorLog2Fuel 64 a :=
    Nat.pow_le_pow_right (by norm_num) (by omega)
  omega

theorem bits_eq (size : Nat) (h8 : 8 ≤ size) (h64 : size < 2 ^ 64) :
    63 - countLeadingZeros size = floorLog2Fuel 64 size := by
  have h1 : 1 ≤ size := by omega
  obtain ⟨hL, hR⟩ := floorLog2Fuel_bracket 64 size h1 h64
  have hle : floorLog2Fuel 64 size ≤ 63 := by
    by_contra h
    have : 2 ^ 64 ≤ 2 ^ floorLog2Fuel 64 size :=
      Nat.pow_le_pow_right (by norm_num) (by omega)
    omega
  have hz : size ≠ 0 := by omega
  unfold countLeadingZeros
  simp only [hz, if_false]
  omega

theorem floorLog2_ge_three (size : Nat) (h8 : 8 ≤ size) (h64 : size < 2 ^ 64) :
    3 ≤ floorLog2Fuel 64 size := by
  obtain ⟨hL, hR⟩ := floorLog2Fuel_bracket 64 size (by omega) h64
  by_contra h
  have : 2 ^ (floorLog2Fuel 64 size + 1) ≤ 2 ^ 3 :=
    Nat.pow_le_pow_right (by norm_num) (by omega)
  omega

theorem getPreferredSize_eq (size : Nat) (h8 : 8 ≤ size) (h64 : size < 2 ^ 64) :
    getPreferredSize size =
      if 2 ^ floorLog2Fuel 64 size = size then size
      else if 3 * 2 ^ (floorLog2Fuel 64 size - 1) ≥ size then
        3 * 2 ^ (floorLog2Fuel 64 size - 1)
      else 2 ^ (floorLog2Fuel 64 size + 1) % 2 ^ 64 := by
  unfold getPreferredSize
  have hb := bits_eq size h8 h64
  have hL3 := floorLog2_ge_three size h8 h64
  set L := floorLog2Fuel 64 size with hLdef
  rw [if_neg (by omega)]
  simp only [hb, Nat.one_shiftLeft]
  have hpow : 2 ^ L = 2 * 2 ^ (L - 1) := by
    conv_lhs => rw [show L = (L - 1) + 1 by omega]
    ring
  have h2 : 2 ^ L / 2 = 2 ^ (L - 1) := by omega
  have h3 : 2 ^ L + 2 ^ L / 2 = 3 * 2 ^ (L - 1) := by omega
  have h4 : 2 ^ L * 2 = 2 ^ (L + 1) := by ring
  rw [h3, h4]

theorem getPreferredSize_eq_safe (size : Nat) (h8 : 8 ≤ size)
    (hT : size ≤ 3 * 2 ^ 62) :
    getPreferredSize size =
      if 2 ^ floorLog2Fuel 64 size = size then size
      else if 3 * 2 ^ (floorLog2Fuel 64 size - 1) ≥ size then
        3 * 2 ^ (floorLog2Fuel 64 size - 1)
      else 2 ^ (floorLog2Fuel 64 size + 1) := by
  have h64 : size < 2 ^ 64 := by
    have : (3 : Nat) * 2 ^ 62 < 2 ^ 64 := by norm_num
    omega
  rw [getPreferredSize_eq size h8 h64]
  obtain ⟨hL, hR⟩ := floorLog2Fuel_bracket 64 size (by omega) h64
  set L := floorLog2Fuel 64 size with hLdef
  split_ifs with he hm
  · rfl
  · rfl
  · have hL62 : L ≤ 62 := by
      by_contra hcon
      have h62 : (62 : Nat) ≤ L - 1 := by omega
      have : 2 ^ 62 ≤ 2 ^ (L - 1) := Nat.pow_le_pow_right (by norm_num) h62
      omega
    have : 2 ^ (L + 1) < 2 ^ 64 := by
      calc 2 ^ (L + 1) ≤ 2 ^ 63 := Nat.pow_le_pow_right (by norm_num) (by omega)
      _ < 2 ^ 64 := by norm_num
    exact Nat.mod_eq_of_lt this

theorem getPreferredSize_small (size : Nat) (h : size < 8) :
    getPreferredSize size = 8 := by
  unfold getPreferredSize
  rw [if_pos h]

theorem getPreferredSize_ge (size : Nat) (hT : size ≤ 3 * 2 ^ 62) :
    size ≤ getPreferredSize size := by
  by_cases h8 : size < 8
  · rw [getPreferredSize_small size h8]; omega
  · push_neg at h8
    have h64 : size < 2 ^ 64 := by
      have : (3 : Nat) * 2 ^ 62 < 2 ^ 64 := by norm_num
      omega
    obtain ⟨hL, hR⟩ := floorLog2Fuel_bracket 64 size (by omega) h64
    rw [getPreferredSize_eq_safe size h8 hT]
    split_ifs with he hm
    · omega
    · omega
    · omega

theorem getPreferredSize_le_twice (size : Nat) (h4 : 4 ≤ size)
    (hT : size ≤ 3 * 2 ^ 62) : getPreferredSize size ≤ 2 * size := by
  by_cases h8 : size < 8
  · rw [getPreferredSize_small size h8]; omega
  · push_neg at h8
    have h64 : size < 2 ^ 64 := by
      have : (3 : Nat) * 2 ^ 62 < 2 ^ 64 := by norm_num
      omega
    obtain ⟨hL, hR⟩ := floorLog2Fuel_bracket 64 size (by omega) h64
    have hL3 := floorLog2_ge_three size h8 h64
    have hpow : 2 ^ floorLog2Fuel 64 size = 2 * 2 ^ (floorLog2Fuel 64 size - 1) := by
      conv_lhs => rw [show floorLog2Fuel 64 size = (floorLog2Fuel 64 size - 1) + 1 by omega]
      ring
    have hpow2 : 2 ^ (floorLog2Fuel 64 size + 1) = 2 * 2 ^ floorLog2Fuel 64 size := by
      ring
    rw [getPreferredSize_eq_safe size h8 hT]
    split_ifs with he hm
    · omega
    · omega
    · omega

theorem getPreferredSize_pow (k : Nat) (h8 : 8 ≤ 2 ^ k) (h64 : 2 ^ k < 2 ^ 64) :
    getPreferredSize (2 ^ k) = 2 ^ k := by
  have hLk : floorLog2Fuel 64 (2 ^ k) = k :=
    floorLog2Fuel_unique k (2 ^ k) h64 (le_refl _)
      (by have : 2 ^ (k + 1) = 2 * 2 ^ k := by ring
          have h0 : 0 < 2 ^ k := Nat.pos_pow_of_pos k (by norm_num)
          omega)
  rw [getPreferredSize_eq (2 ^ k) h8 h64, hLk, if_pos rfl]

theorem getPreferredSize_threeHalves (L : Nat) (h3 : 3 ≤ L) (h63 : L ≤ 63) :
    getPreferredSize (3 * 2 ^ (L - 1)) = 3 * 2 ^ (L - 1) := by
  have hpow : 2 ^ L = 2 * 2 ^ (L - 1) := by
    conv_lhs => rw [show L = (L - 1) + 1 by omega]
    ring
  have hpos : (4 : Nat) ≤ 2 ^ (L - 1) := by
    calc (4 : Nat) = 2 ^ 2 := by norm_num
    _ ≤ 2 ^ (L - 1) := Nat.pow_le_pow_right (by norm_num) (by omega)
  have hup : 2 ^ (L - 1) ≤ 2 ^ 62 := Nat.pow_le_pow_right (by norm_num) (by omega)
  have h8 : 8 ≤ 3 * 2 ^ (L - 1) := by omega
  have h64 : 3 * 2 ^ (L - 1) < 2 ^ 64 := by
    have : (3 : Nat) * 2 ^ 62 < 2 ^ 64 := by norm_num
    omega
  have hLm : floorLog2Fuel 64 (3 * 2 ^ (L - 1)) = L := by
    apply floorLog2Fuel_unique L _ h64
    · omega
    · have : 2 ^ (L + 1) = 4 * 2 ^ (L - 1) := by
        conv_lhs => rw [show L + 1 = (L - 1) + 2 by omega]
        ring
      omega
  rw [getPreferredSize_eq _ h8 h64, hLm]
  rw [if_neg (by omega), if_pos (by omega)]

theorem getPreferredSize_idem (size : Nat) (hT : size ≤ 3 * 2 ^ 62) :
    getPreferredSize (getPreferredSize size) = getPreferredSize size := by
  by_cases h8 : size < 8
  · rw [getPreferredSize_small size h8]
    have h83 : (8 : Nat) = 2 ^ 3 := by norm_num
    rw [h83]
    exact getPreferredSize_pow 3 (by norm_num) (by norm_num)
  · push_neg at h8
    have h64 : size < 2 ^ 64 := by
      have : (3 : Nat) * 2 ^ 62 < 2 ^ 64 := by norm_num
      omega
    obtain ⟨hL, hR⟩ := floorLog2Fuel_bracket 64 size (by omega) h64
    have hL3 := floorLog2_ge_three size h8 h64
    have hL63 : floorLog2Fuel 64 size ≤ 63 := by
      by_contra hcon
      have : 2 ^ 64 ≤ 2 ^ floorLog2Fuel 64 size :=
        Nat.pow_le_pow_right (by norm_num) (by omega)
      omega
    rw [getPreferredSize_eq_safe size h8 hT]
    split_ifs with he hm
    · rw [← he]
      exact getPreferredSize_pow (floorLog2Fuel 64 size) (by omega) (by omega)
    · exact getPreferredSize_threeHalves (floorLog2Fuel 64 size) hL3 hL63
    · have hpow : 2 ^ floorLog2Fuel 64 size = 2 * 2 ^ (floorLog2Fuel 64 size - 1) := by
        conv_lhs => rw [show floorLog2Fuel 64 size = (floorLog2Fuel 64 size - 1) + 1 by omega]
        ring
      have hL62 : floorLog2Fuel 64 size ≤ 62 := by
        by_contra hcon
        have h262 : 2 ^ (floorLog2Fuel 64 size - 1) = 2 ^ 62 := by
          rw [show floorLog2Fuel 64 size - 1 = 62 by omega]
        omega
      exact getPreferredSize_pow (floorLog2Fuel 64 size + 1)
        (by calc (8 : Nat) = 2 ^ 3 := by norm_num
            _ ≤ 2 ^ (floorLog2Fuel 64 size + 1) :=
              Nat.pow_le_pow_right (by norm_num) (by omega))
        (by calc 2 ^ (floorLog2Fuel 64 size + 1) ≤ 2 ^ 63 :=
              Nat.pow_le_pow_right (by norm_num) (by omega)
            _ < 2 ^ 64 := by norm_num)

theorem getPreferredSize_ge_eight (size : Nat) (hT : size ≤ 3 * 2 ^ 62) :
    8 ≤ getPreferredSize size := by
  by_cases h8 : size < 8
  · rw [getPreferredSize_small size h8]
  · push_neg at h8
    have := getPreferredSize_ge size hT
    omega

theorem getPreferredSize_mono (a b : Nat) (hab : a ≤ b) (hT : b ≤ 3 * 2 ^ 62) :
    getPreferredSize a ≤ getPreferredSize b := by
  by_cases ha8 : a < 8
  · rw [getPreferredSize_small a ha8]
    exact getPreferredSize_ge_eight b hT
  · push_neg at ha8
    have hb8 : 8 ≤ b := by omega
    have haT : a ≤ 3 * 2 ^ 62 := by omega
    have h64b : b < 2 ^ 64 := by
      have : (3 : Nat) * 2 ^ 62 < 2 ^ 64 := by norm_num
      omega
    have h64a : a < 2 ^ 64 := by omega
    obtain ⟨haL, haR⟩ := floorLog2Fuel_bracket 64 a (by omega) h64a
    obtain ⟨hbL, hbR⟩ := floorLog2Fuel_bracket 64 b (by omega) h64b
    have hmono := floorLog2Fuel_mono a b (by omega) hab h64b
    have hgeb := getPreferredSize_ge b hT
    have hL3a := floorLog2_ge_three a ha8 h64a
    have hpowa : 2 ^ floorLog2Fuel 64 a = 2 * 2 ^ (floorLog2Fuel 64 a - 1) := by
      conv_lhs => rw [show floorLog2Fuel 64 a = (floorLog2Fuel 64 a - 1) + 1 by omega]
      ring
    have hpow2a : 2 ^ (floorLog2Fuel 64 a + 1) = 2 * 2 ^ floorLog2Fuel 64 a := by ring
    rcases Nat.lt_or_ge (floorLog2Fuel 64 a) (floorLog2Fuel 64 b) with hlt | hge
    · have hstep : 2 ^ (floorLog2Fuel 64 a + 1) ≤ 2 ^ floorLog2Fuel 64 b :=
        Nat.pow_le_pow_right (by norm_num) (by omega)
      have hpa : getPreferredSize a ≤ 2 ^ (floorLog2Fuel 64 a + 1) := by
        rw [getPreferredSize_eq_safe a ha8 haT]
        split_ifs with he hm
        · omega
        · omega
        · omega
      omega
    · have heq : floorLog2Fuel 64 b = floorLog2Fuel 64 a := by omega
      rw [heq] at hbL hbR
      have hpow4a : 2 ^ (floorLog2Fuel 64 a + 1) = 4 * 2 ^ (floorLog2Fuel 64 a - 1) := by
        conv_lhs => rw [show floorLog2Fuel 64 a + 1 = (floorLog2Fuel 64 a - 1) + 2 by omega]
        ring
      rw [getPreferredSize_eq_safe a ha8 haT, getPreferredSize_eq_safe b hb8 hT, heq]
      split_ifs with hea hma heb hmb heb hmb <;> omega

theorem getPreferredSizeSpec_agrees (size : Nat) (hT : size ≤ 3 * 2 ^ 62) :
    getPreferredSize size = getPreferredSizeSpec size := by
  by_cases h8 : size < 8
  · rw [getPreferredSize_small size h8]
    unfold getPreferredSizeSpec
    rw [if_pos h8]
  · push_neg at h8
    have h64 : size < 2 ^ 64 := by
      have : (3 : Nat) * 2 ^ 62 < 2 ^ 64 := by norm_num
      omega
    obtain ⟨hL, hR⟩ := floorLog2Fuel_bracket 64 size (by omega) h64
    have hL3 := floorLog2_ge_three size h8 h64
    have hpow : 2 ^ floorLog2Fuel 64 size = 2 * 2 ^ (floorLog2Fuel 64 size - 1) := by
      conv_lhs => rw [show floorLog2Fuel 64 size = (floorLog2Fuel 64 size - 1) + 1 by omega]
      ring
    have hpow2 : 2 ^ (floorLog2Fuel 64 size + 1) = 2 * 2 ^ floorLog2Fuel 64 size := by
      ring
    rw [getPreferredSize_eq_safe size h8 hT]
    simp only [getPreferredSizeSpec]
    split_ifs <;> omega

theorem getPreferredSize_overflow (size : Nat) (h1 : 3 * 2 ^ 62 < size)
    (h2 : size < 2 ^ 64) : getPreferredSize size = 0 := by
  have h8 : 8 ≤ size := by omega
  have hL : floorLog2Fuel 64 size = 63 :=
    floorLog2Fuel_unique 63 size h2 (by omega) (by omega)
  rw [getPreferredSize_eq size h8 h2, hL]
  rw [if_neg (by omega), if_neg (by omega)]
  norm_num

/-! ### Claims C1, C2, C10: the size-class policy -/

/-- Claim C1 (counterexample): at `size = 3 * 2 ^ 62 + 1` the largest power
of two at most `size` is `2 ^ 63` and `size` exceeds its 1.5 multiple, so
the claimed algorithm answers `lower * 2 = 2 ^ 64`; the code's 64-bit
`size_t` multiplication wraps that to `0`. -/
theorem C1_counterexample :
    getPreferredSize (3 * 2 ^ 62 + 1) = 0 ∧
    getPreferredSizeSpec (3 * 2 ^ 62 + 1) = 2 ^ 64 ∧
    getPreferredSize (3 * 2 ^ 62 + 1) ≠ getPreferredSizeSpec (3 * 2 ^ 62 + 1) :=
  ⟨by decide, by decide, by decide⟩

/-- Claim C1 (amended): `getPreferredSize` implements the claimed
size-class algorithm for every requested size up to `3 * 2 ^ 62` (where
`lower * 2` still fits in 64 bits); beyond that bound the final
`lower * 2` is computed modulo `2 ^ 64` and the code returns `0`.  The
enumerated values `5 ↦ 8`, `8 ↦ 8`, `9 ↦ 12`, `12 ↦ 12`, `13 ↦ 16` all
hold. -/
theorem C1_preferred_size_algorithm :
    (∀ size : Nat, size ≤ 3 * 2 ^ 62 →
      getPreferredSize size = getPreferredSizeSpec size) ∧
    (∀ size : Nat, 3 * 2 ^ 62 < size → size < 2 ^ 64 →
      getPreferredSize size = 0) ∧
    getPreferredSize 5 = 8 ∧ getPreferredSize 8 = 8 ∧
    getPreferredSize 9 = 12 ∧ getPreferredSize 12 = 12 ∧
    getPreferredSize 13 = 16 :=
  ⟨getPreferredSizeSpec_agrees, getPreferredSize_overflow,
   by decide, by decide, by decide, by decide, by decide⟩

/-- Claim C1 (witness): the amended theorem applied at `size = 9` and at
the wrapped input `size = 3 * 2 ^ 62 + 7`. -/
theorem C1_witness :
    getPreferredSize 9 = getPreferredSizeSpec 9 ∧
    getPreferredSize (3 * 2 ^ 62 + 7) = 0 :=
  ⟨C1_preferred_size_algorithm.1 9 (by norm_num),
   C1_preferred_size_algorithm.2.1 (3 * 2 ^ 62 + 7) (by norm_num) (by norm_num)⟩

/-- Claim C2 (counterexample): `getPreferredSize 1 = 8 > 2 * 1`, refuting
`preferredSize(size) ≤ 2 * size` for every size; and at
`size = 3 * 2 ^ 62 + 1` the code returns `0 < size`, refuting
`preferredSize(size) ≥ size` for every size. -/
theorem C2_counterexample :
    (getPreferredSize 1 = 8 ∧ ¬ getPreferredSize 1 ≤ 2 * 1) ∧
    (getPreferredSize (3 * 2 ^ 62 + 1) = 0 ∧
     ¬ 3 * 2 ^ 62 + 1 ≤ getPreferredSize (3 * 2 ^ 62 + 1)) :=
  ⟨⟨by decide, by decide⟩, ⟨by decide, by decide⟩⟩

/-- Claim C2 (amended): on the 64-bit domain, `size ≤ getPreferredSize
size` holds for every `size ≤ 3 * 2 ^ 62` (beyond which `lower * 2` wraps),
`getPreferredSize size ≤ 2 * size` additionally needs `4 ≤ size` (sizes
below 4 are rounded up to the minimum class 8), and every power of two
between `8` and `2 ^ 63` is its own preferred size. -/
theorem C2_preferred_size_bounds :
    (∀ size : Nat, size ≤ 3 * 2 ^ 62 → size ≤ getPreferredSize size) ∧
    (∀ size : Nat, 4 ≤ size → size ≤ 3 * 2 ^ 62 →
      getPreferredSize size ≤ 2 * size) ∧
    (∀ size : Nat, 8 ≤ size → size < 2 ^ 64 → (∃ k, size = 2 ^ k) →
      getPreferredSize size = size) := by
  refine ⟨getPreferredSize_ge, getPreferredSize_le_twice, ?_⟩
  rintro size h8 h64 ⟨k, rfl⟩
  exact getPreferredSize_pow k h8 h64

/-- Claim C2 (witness): the amended bounds at `size = 100` and the
power-of-two case at `size = 64 = 2 ^ 6`. -/
theorem C2_witness :
    100 ≤ getPreferredSize 100 ∧ getPreferredSize 100 ≤ 2 * 100 ∧
    getPreferredSize 64 = 64 :=
  ⟨C2_preferred_size_bounds.1 100 (by norm_num),
   C2_preferred_size_bounds.2.1 100 (by norm_num) (by norm_num),
   C2_preferred_size_bounds.2.2 64 (by norm_num) (by norm_num) ⟨6, rfl⟩⟩

/-- Claim C10 (counterexample): at `size = 3 * 2 ^ 62 + 1` the code
returns the wrapped value `0`, and `getPreferredSize 0 = 8 ≠ 0`, so
idempotence fails there; monotonicity fails against `a = 2 ^ 63 ≤ size`,
whose preferred size `2 ^ 63` exceeds `0`. -/
theorem C10_counterexample :
    getPreferredSize (getPreferredSize (3 * 2 ^ 62 + 1)) ≠
      getPreferredSize (3 * 2 ^ 62 + 1) ∧
    (2 : Nat) ^ 63 ≤ 3 * 2 ^ 62 + 1 ∧
    ¬ getPreferredSize (2 ^ 63) ≤ getPreferredSize (3 * 2 ^ 62 + 1) :=
  ⟨by decide, by decide, by decide⟩

/-- Claim C10 (amended): `getPreferredSize` is idempotent and monotone on
the sizes up to `3 * 2 ^ 62`, the range on which the final `lower * 2`
does not wrap modulo `2 ^ 64`. -/
theorem C10_idempotent_monotone :
    (∀ size : Nat, size ≤ 3 * 2 ^ 62 →
      getPreferredSize (getPreferredSize size) = getPreferredSize size) ∧
    (∀ a b : Nat, a ≤ b → b ≤ 3 * 2 ^ 62 →
      getPreferredSize a ≤ getPreferredSize b) :=
  ⟨getPreferredSize_idem, getPreferredSize_mono⟩

/-- Claim C10 (witness): idempotence at `size = 100` and monotonicity at
`50 ≤ 100`. -/
theorem C10_witness :
    getPreferredSize (getPreferredSize 100) = getPreferredSize 100 ∧
    getPreferredSize 50 ≤ getPreferredSize 100 :=
  ⟨C10_idempotent_monotone.1 100 (by norm_num),
   C10_idempotent_monotone.2 50 100 (by norm_num) (by norm_num)⟩

/-! ### Association-list lemmas -/

theorem assocFind_mem {β : Type} (l : List (Nat × β)) (x : Nat) (c : β)
    (h : assocFind l x = some c) : (x, c) ∈ l := by
  induction l with
  | nil => simp [assocFind] at h
  | cons hd tl ih =>
    obtain ⟨a, v⟩ := hd
    by_cases hax : a = x
    · subst hax
      simp [assocFind] at h
      subst h
      exact List.mem_cons_self _ _
    · simp [assocFind, hax] at h
      exact List.mem_cons_of_mem _ (ih h)

theorem assocFind_eq_none {β : Type} (l : List (Nat × β)) (x : Nat)
    (h : x ∉ l.map Prod.fst) : assocFind l x = none := by
  induction l with
  | nil => rfl
  | cons hd tl ih =>
    obtain ⟨a, v⟩ := hd
    have h1 : ¬ a = x := fun hc => h (by simp [hc])
    have h2 : x ∉ tl.map Prod.fst := fun hc => h (by simp [hc])
    simp [assocFind, h1]
    exact ih h2

theorem assocFind_assocRemove_self {β : Type} (l : List (Nat × β)) (x : Nat)
    (h : (l.map Prod.fst).Nodup) : assocFind (assocRemove l x) x = none := by
  induction l with
  | nil => rfl
  | cons hd tl ih =>
    obtain ⟨a, v⟩ := hd
    simp at h
    by_cases hax : a = x
    · subst hax
      simp [assocRemove]
      apply assocFind_eq_none
      simpa using h.1
    · simp [assocRemove, hax, assocFind]
      exact ih h.2

theorem assocFind_assocRemove_ne {β : Type} (l : List (Nat × β)) (x y : Nat)
    (h : y ≠ x) : assocFind (assocRemove l x) y = assocFind l y := by
  have hxy : ¬ x = y := fun hc => h hc.symm
  induction l with
  | nil => rfl
  | cons hd tl ih =>
    obtain ⟨a, v⟩ := hd
    by_cases hax : a = x
    · subst hax
      simp [assocRemove, assocFind, hxy]
    · by_cases hay : a = y
      · simp [assocRemove, hax, assocFind, hay, h]
      · simp [assocRemove, hax, assocFind, hay]
        exact ih

theorem assocFind_assocUpdate_self {β : Type} (g : β → β) (l : List (Nat × β))
    (x : Nat) : assocFind (assocUpdate g l x) x = (assocFind l x).map g := by
  induction l with
  | nil => rfl
  | cons hd tl ih =>
    obtain ⟨a, v⟩ := hd
    by_cases hax : a = x
    · simp [assocUpdate, hax, assocFind]
    · simp [assocUpdate, hax, assocFind]
      exact ih

theorem assocFind_assocUpdate_ne {β : Type} (g : β → β) (l : List (Nat × β))
    (x y : Nat) (h : y ≠ x) :
    assocFind (assocUpdate g l x) y = assocFind l y := by
  have hxy : ¬ x = y := fun hc => h hc.symm
  induction l with
  | nil => rfl
  | cons hd tl ih =>
    obtain ⟨a, v⟩ := hd
    by_cases hax : a = x
    · subst hax
      simp [assocUpdate, assocFind, hxy]
      exact ih
    · by_cases hay : a = y
      · simp [assocUpdate, hax, assocFind, hay, h]
      · simp [assocUpdate, hax, assocFind, hay]
        exact ih

theorem assocUpdate_map_fst {β : Type} (g : β → β) (l : List (Nat × β))
    (x : Nat) : (assocUpdate g l x).map Prod.fst = l.map Prod.fst := by
  induction l with
  | nil => rfl
  | cons hd tl ih =>
    obtain ⟨a, v⟩ := hd
    by_cases hax : a = x
    · simp [assocUpdate, hax, ih]
    · simp [assocUpdate, hax, ih]

theorem assocUpdate_not_mem {β : Type} (g : β → β) (l : List (Nat × β))
    (x : Nat) (h : x ∉ l.map Prod.fst) : assocUpdate g l x = l := by
  induction l with
  | nil => rfl
  | cons hd tl ih =>
    obtain ⟨a, v⟩ := hd
    have h1 : ¬ a = x := fun hc => h (by simp [hc])
    have h2 : x ∉ tl.map Prod.fst := fun hc => h (by simp [hc])
    simp [assocUpdate, h1]
    exact ih h2

/-! ### Claims C3-C6: the allocator variants -/

theorem nextAddr_not_mem_keys (st : Mem) (hwf : st.wf) :
    st.nextAddr ∉ st.blocks.map Prod.fst := by
  intro hmem
  obtain ⟨p, hp, hfst⟩ := List.mem_map.mp hmem
  have := hwf.1 p hp
  omega

theorem mmapRealloc_null (st : Mem) (size newSize : Nat) :
    MmapMemoryAllocator.realloc st none size newSize =
      MmapMemoryAllocator.alloc st newSize := rfl

theorem mmapRealloc_fail (st : Mem) (p : Option Nat) (size newSize : Nat)
    (h : st.failures.head? = some true) :
    MmapMemoryAllocator.realloc st p size newSize =
      (none, { st with failures := st.failures.tail }) := by
  unfold MmapMemoryAllocator.realloc MmapMemoryAllocator.alloc Mem.allocateBytes
  rw [if_pos h]
  cases p <;> rfl

theorem mmapRealloc_success (st : Mem) (pa size newSize : Nat) (c : List Nat)
    (hwf : st.wf) (hfail : ¬ st.failures.head? = some true)
    (hlk : st.lookup pa = some c) :
    MmapMemoryAllocator.realloc st (some pa) size newSize =
      (some st.nextAddr,
       { st with
          blocks := assocRemove
            (assocUpdate
              (fun old => c.take (min size newSize) ++
                old.drop (c.take (min size newSize)).length)
              ((st.nextAddr, List.replicate newSize st.junk) :: st.blocks)
              st.nextAddr) pa
          nextAddr := st.nextAddr + newSize + 1
          failures := st.failures.tail }) := by
  have hmem := assocFind_mem _ _ _ hlk
  have hpa : pa < st.nextAddr := hwf.1 (pa, c) hmem
  have hne : ¬ st.nextAddr = pa := by omega
  unfold Mem.lookup at hlk
  unfold MmapMemoryAllocator.realloc MmapMemoryAllocator.alloc Mem.allocateBytes
    Mem.memcpy Mem.freeBytes
  rw [if_neg hfail]
  simp only [assocFind, if_neg hne, hlk]

/-- Claim C3: `MmapMemoryAllocator::realloc` allocates `newSize` bytes,
copies `min(size, newSize)` bytes of the old block, frees the old block
with its original size, and returns the new one; a null original pointer
degenerates to a plain `alloc(newSize)`; a failed new allocation returns
null and leaves every existing block (in particular the original)
untouched. -/
theorem C3_mmap_realloc_contract :
    (∀ st : Mem, ∀ size newSize : Nat,
      MmapMemoryAllocator.realloc st none size newSize =
        MmapMemoryAllocator.alloc st newSize) ∧
    (∀ st : Mem, ∀ p : Option Nat, ∀ size newSize : Nat,
      st.failures.head? = some true →
      (MmapMemoryAllocator.realloc st p size newSize).1 = none ∧
      (MmapMemoryAllocator.realloc st p size newSize).2.blocks = st.blocks) ∧
    (∀ st : Mem, ∀ pa size newSize : Nat, ∀ c : List Nat,
      st.wf → ¬ st.failures.head? = some true →
      st.lookup pa = some c → c.length = size →
      (MmapMemoryAllocator.realloc st (some pa) size newSize).1 =
        some st.nextAddr ∧
      (MmapMemoryAllocator.realloc st (some pa) size newSize).2.lookup
          st.nextAddr =
        some (c.take (min size newSize) ++
          List.replicate (newSize - min size newSize) st.junk) ∧
      (c.take (min size newSize) ++
        List.replicate (newSize - min size newSize) st.junk).length = newSize ∧
      (MmapMemoryAllocator.realloc st (some pa) size newSize).2.lookup pa =
        none) := by
  refine ⟨fun _ _ _ => rfl, ?_, ?_⟩
  · intro st p size newSize h
    rw [mmapRealloc_fail st p size newSize h]
    exact ⟨rfl, rfl⟩
  · intro st pa size newSize c hwf hfail hlk hlen
    have hmem := assocFind_mem _ _ _ hlk
    have hpa : pa < st.nextAddr := hwf.1 (pa, c) hmem
    have hne : ¬ st.nextAddr = pa := by omega
    rw [mmapRealloc_success st pa size newSize c hwf hfail hlk]
    refine ⟨rfl, ?_, ?_, ?_⟩
    · show assocFind _ st.nextAddr = _
      rw [assocFind_assocRemove_ne _ pa st.nextAddr (by omega),
        assocFind_assocUpdate_self]
      unfold assocFind
      rw [if_pos rfl]
      simp only [Option.map_some']
      have hmle : min size newSize ≤ c.length := by omega
      rw [List.length_take]
      rw [show min (min size newSize) c.length = min size newSize by omega]
      rw [List.drop_replicate]
    · have hmle : min size newSize ≤ size := by omega
      simp only [List.length_append, List.length_take, List.length_replicate]
      omega
    · show assocFind _ pa = _
      apply assocFind_assocRemove_self
      rw [assocUpdate_map_fst]
      simp only [List.map_cons]
      exact List.Nodup.cons (nextAddr_not_mem_keys st hwf) hwf.2

/-- Claim C3 (witness): the three cases at concrete states: the
null-pointer case, a failing allocation, and reallocating a 3-byte block
`[1, 2, 3]` down to 2 bytes. -/
theorem C3_witness :
    (MmapMemoryAllocator.realloc ⟨[(0, [1, 2, 3])], 1, [], 7⟩ none 3 2 =
      MmapMemoryAllocator.alloc ⟨[(0, [1, 2, 3])], 1, [], 7⟩ 2) ∧
    ((MmapMemoryAllocator.realloc ⟨[(0, [1, 2, 3])], 1, [true], 7⟩
        (some 0) 3 2).1 = none ∧
     (MmapMemoryAllocator.realloc ⟨[(0, [1, 2, 3])], 1, [true], 7⟩
        (some 0) 3 2).2.blocks = [(0, [1, 2, 3])]) ∧
    ((MmapMemoryAllocator.realloc ⟨[(0, [1, 2, 3])], 1, [], 7⟩
        (some 0) 3 2).1 = some 1 ∧
     (MmapMemoryAllocator.realloc ⟨[(0, [1, 2, 3])], 1, [], 7⟩
        (some 0) 3 2).2.lookup 1 =
       some ([1, 2, 3].take (min 3 2) ++ List.replicate (2 - min 3 2) 7) ∧
     ([1, 2, 3].take (min 3 2) ++ List.replicate (2 - min 3 2) 7).length = 2 ∧
     (MmapMemoryAllocator.realloc ⟨[(0, [1, 2, 3])], 1, [], 7⟩
        (some 0) 3 2).2.lookup 0 = none) :=
  ⟨C3_mmap_realloc_contract.1 _ 3 2,
   C3_mmap_realloc_contract.2.1 _ (some 0) 3 2 (by decide),
   C3_mmap_realloc_contract.2.2 _ 0 3 2 [1, 2, 3] (by decide) (by decide)
     (by decide) (by decide)⟩

/-- Claim C4: `MmapMemoryAllocator::allocZeroFilled(count, sizeEach)`
succeeds exactly when `alloc(count * sizeEach)` does; on success every one
of the `count * sizeEach` bytes of the returned block is zero; on failure
it returns null and allocates nothing. -/
theorem C4_mmap_allocZeroFilled_contract :
    (∀ st : Mem, ∀ numMembers sizeEach : Nat,
      (MmapMemoryAllocator.allocZeroFilled st numMembers sizeEach).1 =
        (MmapMemoryAllocator.alloc st (numMembers * sizeEach)).1) ∧
    (∀ st : Mem, ∀ numMembers sizeEach : Nat,
      st.failures.head? = some true →
      MmapMemoryAllocator.allocZeroFilled st numMembers sizeEach =
        (none, { st with failures := st.failures.tail })) ∧
    (∀ st : Mem, ∀ numMembers sizeEach : Nat,
      ¬ st.failures.head? = some true →
      (MmapMemoryAllocator.allocZeroFilled st numMembers sizeEach).1 =
        some st.nextAddr ∧
      (MmapMemoryAllocator.allocZeroFilled st numMembers sizeEach).2.lookup
          st.nextAddr =
        some (List.replicate (numMembers * sizeEach) 0)) := by
  refine ⟨?_, ?_, ?_⟩
  · intro st numMembers sizeEach
    by_cases h : st.failures.head? = some true
    · simp [MmapMemoryAllocator.allocZeroFilled, MmapMemoryAllocator.alloc,
        Mem.allocateBytes, h]
    · simp [MmapMemoryAllocator.allocZeroFilled, MmapMemoryAllocator.alloc,
        Mem.allocateBytes, h]
  · intro st numMembers sizeEach h
    simp [MmapMemoryAllocator.allocZeroFilled, MmapMemoryAllocator.alloc,
      Mem.allocateBytes, h]
  · intro st numMembers sizeEach h
    refine ⟨?_, ?_⟩
    · simp [MmapMemoryAllocator.allocZeroFilled, MmapMemoryAllocator.alloc,
        Mem.allocateBytes, h]
    · simp only [MmapMemoryAllocator.allocZeroFilled, MmapMemoryAllocator.alloc,
        Mem.allocateBytes, if_neg h, Mem.memset, Mem.lookup]
      rw [assocFind_assocUpdate_self]
      unfold assocFind
      rw [if_pos rfl]
      simp [List.drop_replicate]

/-- Claim C4 (witness): zero-filling 2 x 3 bytes in an empty memory whose
uninitialized bytes are 5, and the failing case. -/
theorem C4_witness :
    ((MmapMemoryAllocator.allocZeroFilled ⟨[], 0, [], 5⟩ 2 3).1 = some 0 ∧
     (MmapMemoryAllocator.allocZeroFilled ⟨[], 0, [], 5⟩ 2 3).2.lookup 0 =
       some (List.replicate (2 * 3) 0)) ∧
    MmapMemoryAllocator.allocZeroFilled ⟨[], 0, [true], 5⟩ 2 3 =
      (none, { blocks := [], nextAddr := 0, failures := [], junk := 5 }) :=
  ⟨C4_mmap_allocZeroFilled_contract.2.2 _ 2 3 (by decide),
   C4_mmap_allocZeroFilled_contract.2.1 ⟨[], 0, [true], 5⟩ 2 3 (by decide)⟩

/-- Claim C5: on the mapped-memory-backed variant, `allocAligned` and
`reallocAligned` raise, for every call, the explicitly named
unsupported-operation failure, which is a different value from every
ordinary outcome — in particular from the null return that signals
ordinary allocation failure. -/
theorem C5_mmap_aligned_unsupported :
    (∀ st : Mem, ∀ alignment size : Nat,
      MmapMemoryAllocator.allocAligned st alignment size =
        AlignedResult.unsupported
          "allocAligned is not supported for MmapMemoryAllocator.") ∧
    (∀ st : Mem, ∀ p : Option Nat, ∀ alignment size newSize : Nat,
      MmapMemoryAllocator.reallocAligned st p alignment size newSize =
        AlignedResult.unsupported
          "reallocAligned is not supported for MmapMemoryAllocator.") ∧
    (∀ msg : String, ∀ r : Option Nat, ∀ st : Mem,
      AlignedResult.unsupported msg ≠ AlignedResult.ok r st) :=
  ⟨fun _ _ _ => rfl, fun _ _ _ _ _ => rfl,
   fun _ _ _ h => AlignedResult.noConfusion h⟩

theorem alignTo_ge (n a : Nat) (h : 0 < a) :
    n ≤ a * ((n + a - 1) / a) := by
  have hd := Nat.div_add_mod (n + a - 1) a
  have hm : (n + a - 1) % a < a := Nat.mod_lt _ h
  omega

theorem heapReallocAligned_success (st : Mem) (pa alignment : Nat)
    (size newSize : Int) (c : List Nat) (hwf : st.wf)
    (hfail : ¬ st.failures.head? = some true) (hpos : 0 < newSize)
    (halign : 0 < alignment) (hlk : st.lookup pa = some c) :
    MemoryAllocator.reallocAligned st (some pa) alignment size newSize =
      (some (alignment * ((st.nextAddr + alignment - 1) / alignment)),
       { st with
          blocks := assocRemove
            (assocUpdate
              (fun old => c.take (min size newSize).toNat ++
                old.drop (c.take (min size newSize).toNat).length)
              ((alignment * ((st.nextAddr + alignment - 1) / alignment),
                List.replicate newSize.toNat st.junk) :: st.blocks)
              (alignment * ((st.nextAddr + alignment - 1) / alignment))) pa
          nextAddr :=
            alignment * ((st.nextAddr + alignment - 1) / alignment) +
              newSize.toNat + 1
          failures := st.failures.tail }) := by
  have hmem := assocFind_mem _ _ _ hlk
  have hpa : pa < st.nextAddr := hwf.1 (pa, c) hmem
  have hb := alignTo_ge st.nextAddr alignment halign
  have hne : ¬ alignment * ((st.nextAddr + alignment - 1) / alignment) = pa := by
    omega
  unfold Mem.lookup at hlk
  unfold MemoryAllocator.reallocAligned Mem.allocateAlignedBytes Mem.memcpy
    Mem.stdFree
  rw [if_neg (by omega : ¬ newSize ≤ 0)]
  rw [if_neg hfail]
  simp only [assocFind, if_neg hne, hlk]

/-- Claim C6: the heap variant of `reallocAligned` returns null and
leaves the state untouched when `newSize <= 0`; when `newSize > 0` and the
allocation succeeds it returns a fresh block of `newSize` bytes at an
address that is a multiple of `alignment`, whose first
`min(size, newSize)` bytes are copied from the old block, and the old
block is freed. -/
theorem C6_heap_reallocAligned_contract :
    (∀ st : Mem, ∀ p : Option Nat, ∀ alignment : Nat, ∀ size newSize : Int,
      newSize ≤ 0 →
      MemoryAllocator.reallocAligned st p alignment size newSize =
        (none, st)) ∧
    (∀ st : Mem, ∀ pa alignment : Nat, ∀ size newSize : Int, ∀ c : List Nat,
      st.wf → ¬ st.failures.head? = some true → 0 < newSize →
      0 < alignment → st.lookup pa = some c → (c.length : Int) = size →
      (MemoryAllocator.reallocAligned st (some pa) alignment size newSize).1 =
        some (alignment * ((st.nextAddr + alignment - 1) / alignment)) ∧
      (alignment * ((st.nextAddr + alignment - 1) / alignment)) % alignment =
        0 ∧
      (MemoryAllocator.reallocAligned st (some pa) alignment size
          newSize).2.lookup
          (alignment * ((st.nextAddr + alignment - 1) / alignment)) =
        some (c.take (min size newSize).toNat ++
          List.replicate (newSize.toNat - (min size newSize).toNat) st.junk) ∧
      (c.take (min size newSize).toNat ++
        List.replicate (newSize.toNat - (min size newSize).toNat)
          st.junk).length = newSize.toNat ∧
      (MemoryAllocator.reallocAligned st (some pa) alignment size
          newSize).2.lookup pa = none) := by
  refine ⟨?_, ?_⟩
  · intro st p alignment size newSize h
    unfold MemoryAllocator.reallocAligned
    rw [if_pos h]
  · intro st pa alignment size newSize c hwf hfail hpos halign hlk hlen
    have hmem := assocFind_mem _ _ _ hlk
    have hpa : pa < st.nextAddr := hwf.1 (pa, c) hmem
    have hb := alignTo_ge st.nextAddr alignment halign
    rw [heapReallocAligned_success st pa alignment size newSize c hwf hfail
      hpos halign hlk]
    have hmc : (min size newSize).toNat ≤ c.length := by omega
    refine ⟨rfl, Nat.mul_mod_right alignment _, ?_, ?_, ?_⟩
    · show assocFind _ _ = _
      rw [assocFind_assocRemove_ne _ pa _ (by omega),
        assocFind_assocUpdate_self]
      unfold assocFind
      rw [if_pos rfl]
      simp only [Option.map_some']
      rw [List.length_take]
      rw [show min (min size newSize).toNat c.length = (min size newSize).toNat
        by omega]
      rw [List.drop_replicate]
    · simp only [List.length_append, List.length_take, List.length_replicate]
      omega
    · show assocFind _ pa = _
      apply assocFind_assocRemove_self
      rw [assocUpdate_map_fst]
      simp only [List.map_cons]
      refine List.Nodup.cons ?_ hwf.2
      intro hmem2
      obtain ⟨q, hq, hfst⟩ := List.mem_map.mp hmem2
      have := hwf.1 q hq
      omega

/-- Claim C6 (witness): `newSize = -1` leaves a concrete state untouched;
reallocating a 2-byte block `[9, 9]` to 3 bytes with alignment 4 lands on
address 4 and copies both bytes. -/
theorem C6_witness :
    MemoryAllocator.reallocAligned ⟨[(0, [9, 9])], 1, [], 4⟩ (some 0) 4 2
        (-1) = (none, ⟨[(0, [9, 9])], 1, [], 4⟩) ∧
    ((MemoryAllocator.reallocAligned ⟨[(0, [9, 9])], 1, [], 4⟩ (some 0) 4 2
        3).1 = some (4 * ((1 + 4 - 1) / 4)) ∧
     (4 * ((1 + 4 - 1) / 4)) % 4 = 0 ∧
     (MemoryAllocator.reallocAligned ⟨[(0, [9, 9])], 1, [], 4⟩ (some 0) 4 2
        3).2.lookup (4 * ((1 + 4 - 1) / 4)) =
       some ([9, 9].take (min 2 3 : Int).toNat ++
         List.replicate ((3 : Int).toNat - (min 2 3 : Int).toNat) 4) ∧
     ([9, 9].take (min 2 3 : Int).toNat ++
       List.replicate ((3 : Int).toNat - (min 2 3 : Int).toNat) 4).length =
       (3 : Int).toNat ∧
     (MemoryAllocator.reallocAligned ⟨[(0, [9, 9])], 1, [], 4⟩ (some 0) 4 2
        3).2.lookup 0 = none) :=
  ⟨C6_heap_reallocAligned_contract.1 _ (some 0) 4 2 (-1) (by decide),
   C6_heap_reallocAligned_contract.2 ⟨[(0, [9, 9])], 1, [], 4⟩ 0 4 2 3 [9, 9]
     (by decide) (by decide) (by decide) (by decide) (by decide) (by decide)⟩

/-! ### Claims C7-C9: the pool tree -/

theorem lookupPool_lt (f : Forest) (i : Nat) (ps : PoolState) (hwf : f.wf)
    (h : lookupPool f i = some ps) : i < f.nextId :=
  hwf.1 (i, ps) (assocFind_mem _ _ _ h)

theorem nextId_not_mem_keys (f : Forest) (hwf : f.wf) :
    f.nextId ∉ f.pools.map Prod.fst := by
  intro hmem
  obtain ⟨p, hp, hfst⟩ := List.mem_map.mp hmem
  have := hwf.1 p hp
  omega

theorem addChild_success_eq (f : Forest) (pid : Nat) (name : String)
    (cap : Int) (ps : PoolState) (hwf : f.wf)
    (hlk : lookupPool f pid = some ps)
    (hname : ¬ name ∈ childNames f pid) :
    addChild f pid name cap =
      (some f.nextId,
       ⟨(f.nextId,
          { name := name, parent := some pid, children := [],
            capped := ps.capped, cap := cap }) ::
          assocUpdate (fun p => { p with children := p.children ++ [f.nextId] })
            f.pools pid,
        f.nextId + 1⟩) := by
  have hlt : pid < f.nextId := lookupPool_lt f pid ps hwf hlk
  have hne : ¬ f.nextId = pid := by omega
  have hgen : genChild f pid name cap =
      some (f.nextId,
        ⟨(f.nextId,
           { name := name, parent := some pid, children := [],
             capped := false, cap := cap }) :: f.pools,
         f.nextId + 1⟩) := by
    unfold genChild
    rw [hlk]
    rw [if_neg hname]
  have hcapq : isMemoryCapped
      (⟨(f.nextId,
          { name := name, parent := some pid, children := [],
            capped := false, cap := cap }) :: f.pools,
        f.nextId + 1⟩ : Forest) pid = ps.capped := by
    unfold isMemoryCapped lookupPool
    unfold assocFind
    rw [if_neg hne]
    unfold lookupPool at hlk
    rw [hlk]
  unfold addChild
  rw [hgen]
  simp only [hcapq]
  cases hc : ps.capped with
  | false =>
    simp only [Bool.false_eq_true, if_false]
    unfold updatePool
    simp only [assocUpdate, if_neg hne]
  | true =>
    simp only [if_true]
    unfold capMemoryAllocation updatePool
    simp only [assocUpdate, if_pos rfl]
    rw [assocUpdate_not_mem _ _ _ (nextId_not_mem_keys f hwf)]
    simp only [assocUpdate, if_neg hne]

theorem addChild_dup (f : Forest) (pid : Nat) (name : String) (cap : Int)
    (h : name ∈ childNames f pid) : addChild f pid name cap = (none, f) := by
  unfold addChild genChild
  cases hl : lookupPool f pid with
  | none => rfl
  | some ps =>
    rw [if_pos h]

theorem lookupPool_addChild_child (f : Forest) (pid : Nat) (name : String)
    (cap : Int) (ps : PoolState) (hwf : f.wf)
    (hlk : lookupPool f pid = some ps)
    (hname : ¬ name ∈ childNames f pid) :
    lookupPool (addChild f pid name cap).2 f.nextId =
      some { name := name, parent := some pid, children := [],
             capped := ps.capped, cap := cap } := by
  rw [addChild_success_eq f pid name cap ps hwf hlk hname]
  show assocFind _ _ = _
  unfold assocFind
  rw [if_pos rfl]

theorem lookupPool_addChild_parent (f : Forest) (pid : Nat) (name : String)
    (cap : Int) (ps : PoolState) (hwf : f.wf)
    (hlk : lookupPool f pid = some ps)
    (hname : ¬ name ∈ childNames f pid) :
    lookupPool (addChild f pid name cap).2 pid =
      some { ps with children := ps.children ++ [f.nextId] } := by
  have hlt : pid < f.nextId := lookupPool_lt f pid ps hwf hlk
  rw [addChild_success_eq f pid name cap ps hwf hlk hname]
  show assocFind _ _ = _
  unfold assocFind
  rw [if_neg (by omega : ¬ f.nextId = pid)]
  rw [assocFind_assocUpdate_self]
  unfold lookupPool at hlk
  rw [hlk]
  rfl

theorem childNames_addChild_mem (f : Forest) (pid : Nat) (name : String)
    (cap : Int) (ps : PoolState) (hwf : f.wf)
    (hlk : lookupPool f pid = some ps)
    (hname : ¬ name ∈ childNames f pid) :
    name ∈ childNames (addChild f pid name cap).2 pid := by
  have hchild := lookupPool_addChild_child f pid name cap ps hwf hlk hname
  have hparent := lookupPool_addChild_parent f pid name cap ps hwf hlk hname
  unfold childNames
  rw [hparent]
  apply List.mem_filterMap.mpr
  refine ⟨f.nextId, ?_, ?_⟩
  · simp
  · rw [hchild]
    rfl

/-- Claim C7: destroying a pool whose child set is non-empty is a fatal
check failure; with an empty child set destruction succeeds and removes
the pool from its parent's child set when it has a parent; `dropChild` on
an absent child is likewise fatal, and on a present child it erases
exactly that back-reference. -/
theorem C7_pool_destruction_contract :
    (∀ f : Forest, ∀ cid : Nat, ∀ ps : PoolState,
      lookupPool f cid = some ps → ps.children ≠ [] →
      destroyPool f cid = none) ∧
    (∀ f : Forest, ∀ cid : Nat, ∀ ps : PoolState,
      f.wf → lookupPool f cid = some ps → ps.children = [] →
      ps.parent = none →
      destroyPool f cid = some (removePool f cid) ∧
      lookupPool (removePool f cid) cid = none) ∧
    (∀ f : Forest, ∀ cid par : Nat, ∀ ps psp : PoolState,
      f.wf → lookupPool f cid = some ps → ps.children = [] →
      ps.parent = some par → lookupPool f par = some psp →
      cid ∈ psp.children →
      ∃ f2 : Forest, destroyPool f cid = some f2 ∧
        lookupPool f2 cid = none ∧
        lookupPool f2 par =
          some { psp with children := psp.children.erase cid }) ∧
    (∀ f : Forest, ∀ pid cid : Nat, ∀ ps : PoolState,
      lookupPool f pid = some ps → ¬ cid ∈ ps.children →
      dropChild f pid cid = none) ∧
    (∀ f : Forest, ∀ pid cid : Nat, ∀ ps : PoolState,
      lookupPool f pid = some ps → cid ∈ ps.children →
      dropChild f pid cid =
        some (updatePool f pid
          (fun p => { p with children := p.children.erase cid })) ∧
      lookupPool (updatePool f pid
          (fun p => { p with children := p.children.erase cid })) pid =
        some { ps with children := ps.children.erase cid }) := by
  refine ⟨?_, ?_, ?_, ?_, ?_⟩
  · intro f cid ps hlk hch
    unfold destroyPool
    simp only [hlk]
    rw [if_neg hch]
  · intro f cid ps hwf hlk hch hpar
    unfold destroyPool
    simp only [hlk, hch, hpar]
    refine ⟨rfl, ?_⟩
    show assocFind _ _ = _
    exact assocFind_assocRemove_self _ _ hwf.2
  · intro f cid par ps psp hwf hlk hch hpar hlkp hmem
    have hne : par ≠ cid := by
      intro heq
      subst heq
      rw [hlk] at hlkp
      injection hlkp with h2
      subst h2
      rw [hch] at hmem
      simp at hmem
    refine ⟨removePool (updatePool f par
      (fun p => { p with children := p.children.erase cid })) cid, ?_, ?_, ?_⟩
    · unfold destroyPool
      simp only [hlk, hch, hpar]
      unfold dropChild
      simp only [hlkp]
      rw [if_pos hmem]
      rfl
    · show assocFind _ _ = _
      apply assocFind_assocRemove_self
      unfold updatePool
      rw [assocUpdate_map_fst]
      exact hwf.2
    · show assocFind _ _ = _
      unfold removePool updatePool
      rw [assocFind_assocRemove_ne _ cid par hne]
      rw [assocFind_assocUpdate_self]
      unfold lookupPool at hlkp
      rw [hlkp]
      rfl
  · intro f pid cid ps hlk hmem
    unfold dropChild
    simp only [hlk]
    rw [if_neg hmem]
  · intro f pid cid ps hlk hmem
    constructor
    · unfold dropChild
      simp only [hlk]
      rw [if_pos hmem]
    · show assocFind _ _ = _
      unfold updatePool
      rw [assocFind_assocUpdate_self]
      unfold lookupPool at hlk
      rw [hlk]
      rfl

/-- Claim C7 (witness): in the two-pool forest root `0` with child `1`:
destroying the root is fatal, destroying the leaf child succeeds and
erases the back-reference, `dropChild` of the unknown id `5` is fatal, and
`dropChild 1` erases exactly that entry. -/
theorem C7_witness :
    destroyPool ⟨[(0, ⟨"root", none, [1], false, 100⟩),
                  (1, ⟨"c", some 0, [], false, 10⟩)], 2⟩ 0 = none ∧
    (∃ f2 : Forest,
      destroyPool ⟨[(0, ⟨"root", none, [1], false, 100⟩),
                    (1, ⟨"c", some 0, [], false, 10⟩)], 2⟩ 1 = some f2 ∧
      lookupPool f2 1 = none ∧
      lookupPool f2 0 =
        some { (⟨"root", none, [1], false, 100⟩ : PoolState) with
               children := ([1] : List Nat).erase 1 }) ∧
    dropChild ⟨[(0, ⟨"root", none, [1], false, 100⟩),
                (1, ⟨"c", some 0, [], false, 10⟩)], 2⟩ 0 5 = none ∧
    dropChild ⟨[(0, ⟨"root", none, [1], false, 100⟩),
                (1, ⟨"c", some 0, [], false, 10⟩)], 2⟩ 0 1 =
      some (updatePool ⟨[(0, ⟨"root", none, [1], false, 100⟩),
                         (1, ⟨"c", some 0, [], false, 10⟩)], 2⟩ 0
        (fun p => { p with children := p.children.erase 1 })) :=
  ⟨C7_pool_destruction_contract.1 _ 0 ⟨"root", none, [1], false, 100⟩
     (by decide) (by decide),
   C7_pool_destruction_contract.2.2.1 _ 1 0 ⟨"c", some 0, [], false, 10⟩
     ⟨"root", none, [1], false, 100⟩ (by decide) (by decide) (by decide)
     (by decide) (by decide) (by decide),
   C7_pool_destruction_contract.2.2.2.1 _ 0 5 ⟨"root", none, [1], false, 100⟩
     (by decide) (by decide),
   (C7_pool_destruction_contract.2.2.2.2 _ 0 1 ⟨"root", none, [1], false, 100⟩
     (by decide) (by decide)).1⟩

/-- Claim C8: `addChild` under a name already borne by an existing child
fails without mutating anything; after one successful and one failed
`addChild` of the same name the parent holds exactly one more child than
before the pair of calls. -/
theorem C8_addChild_name_collision :
    (∀ f : Forest, ∀ pid : Nat, ∀ name : String, ∀ cap : Int,
      name ∈ childNames f pid → addChild f pid name cap = (none, f)) ∧
    (∀ f : Forest, ∀ pid : Nat, ∀ name : String, ∀ cap : Int,
      ∀ ps : PoolState,
      f.wf → lookupPool f pid = some ps → ¬ name ∈ childNames f pid →
      (addChild f pid name cap).1 = some f.nextId ∧
      getChildCount (addChild f pid name cap).2 pid =
        ps.children.length + 1 ∧
      addChild (addChild f pid name cap).2 pid name cap =
        (none, (addChild f pid name cap).2)) := by
  refine ⟨addChild_dup, ?_⟩
  intro f pid name cap ps hwf hlk hname
  refine ⟨?_, ?_, ?_⟩
  · rw [addChild_success_eq f pid name cap ps hwf hlk hname]
  · unfold getChildCount
    rw [lookupPool_addChild_parent f pid name cap ps hwf hlk hname]
    simp
  · exact addChild_dup _ pid name cap
      (childNames_addChild_mem f pid name cap ps hwf hlk hname)

/-- Claim C8 (witness): adding `"a"` twice under the singleton root: the
first call succeeds, the second fails and mutates nothing, and the child
count is exactly 1. -/
theorem C8_witness :
    (addChild ⟨[(0, ⟨"root", none, [], false, 100⟩)], 1⟩ 0 "a" 5).1 =
      some 1 ∧
    getChildCount
      (addChild ⟨[(0, ⟨"root", none, [], false, 100⟩)], 1⟩ 0 "a" 5).2 0 =
      ([] : List Nat).length + 1 ∧
    addChild (addChild ⟨[(0, ⟨"root", none, [], false, 100⟩)], 1⟩
        0 "a" 5).2 0 "a" 5 =
      (none,
       (addChild ⟨[(0, ⟨"root", none, [], false, 100⟩)], 1⟩ 0 "a" 5).2) :=
  C8_addChild_name_collision.2 _ 0 "a" 5 ⟨"root", none, [], false, 100⟩
    (by decide) (by decide) (by decide)

/-- Claim C9: a child created while its parent is capped is capped
immediately after creation; capping a pool afterwards rewrites no other
pool's record, so an already-existing child's capped status is
untouched. -/
theorem C9_capped_inheritance :
    (∀ f : Forest, ∀ pid : Nat, ∀ name : String, ∀ cap : Int,
      ∀ ps : PoolState,
      f.wf → lookupPool f pid = some ps → ¬ name ∈ childNames f pid →
      ps.capped = true →
      (lookupPool (addChild f pid name cap).2 f.nextId).map
        PoolState.capped = some true) ∧
    (∀ f : Forest, ∀ pid cid : Nat, cid ≠ pid →
      lookupPool (capMemoryAllocation f pid) cid = lookupPool f cid) := by
  constructor
  · intro f pid name cap ps hwf hlk hname hcap
    rw [lookupPool_addChild_child f pid name cap ps hwf hlk hname]
    simp [hcap]
  · intro f pid cid hne
    unfold capMemoryAllocation updatePool
    show assocFind _ _ = _
    exact assocFind_assocUpdate_ne _ _ pid cid hne

/-- Claim C9 (witness): a child of the capped singleton root is created
capped; capping the root of the two-pool forest leaves the record of the
pre-existing child `1` unchanged. -/
theorem C9_witness :
    (lookupPool (addChild ⟨[(0, ⟨"r", none, [], true, 0⟩)], 1⟩
        0 "a" 5).2 1).map PoolState.capped = some true ∧
    lookupPool (capMemoryAllocation
        ⟨[(0, ⟨"root", none, [1], false, 100⟩),
          (1, ⟨"c", some 0, [], false, 10⟩)], 2⟩ 0) 1 =
      lookupPool ⟨[(0, ⟨"root", none, [1], false, 100⟩),
                   (1, ⟨"c", some 0, [], false, 10⟩)], 2⟩ 1 :=
  ⟨C9_capped_inheritance.1 _ 0 "a" 5 ⟨"r", none, [], true, 0⟩
     (by decide) (by decide) (by decide) (by decide),
   C9_capped_inheritance.2 _ 0 1 (by decide)⟩

end Velox
